import Mathlib

/-!
Verification of the building-access-analyzer aggregation pipeline
(`building_access_analyzer.py`).

The two aggregators `generate_busy_time_report` and `generate_unit_fob_report`
are embedded as pure Lean functions over a list of `AccessRecord`s (the rows
produced by `csv.DictReader`; CSV loading itself is an external collaborator
and out of scope).  Mutable Python state (the `defaultdict` histograms and
per-unit sets) is modelled by the multiset of per-record contributions
(`busyPairs`, `fobPairs`): a dict entry's value is the count (resp. the set of
distinct values) of the contributions with that key, which is exactly what the
imperative loops compute.  Python's `sorted`/`.sort()` on lists of distinct
keys is modelled by an insertion sort with respect to a boolean total order;
strings compare lexicographically by code point, as in Python.
-/

/-- ASCII whitespace stripped by Python's `str.strip()` (the model restricts
itself to the ASCII range; record fields in this data set are ASCII). -/
def isPySpace (c : Char) : Bool :=
  c = ' ' || c = '\t' || c = '\n' || c = '\r' || c = '\x0b' || c = '\x0c'

/-- Python `str.strip()`: remove leading and trailing whitespace. -/
def pyStrip (s : String) : String :=
  ⟨((s.data.dropWhile isPySpace).reverse.dropWhile isPySpace).reverse⟩

/-- Code-point comparison of characters, as Python compares string elements. -/
def charLtB (a b : Char) : Bool := decide (a.toNat < b.toNat)

/-- Lexicographic (code-point) strict order on character lists: Python's `<`
on strings. -/
def lexLt : List Char → List Char → Bool
  | [], [] => false
  | [], _ :: _ => true
  | _ :: _, [] => false
  | a :: as, b :: bs => if a = b then lexLt as bs else charLtB a b

/-- Python's `<` on strings (code-point lexicographic). -/
def strLt (s t : String) : Bool := lexLt s.data t.data

/-- Python's `<=` on strings, as used by `sorted`. -/
def strLe (s t : String) : Bool := !(lexLt t.data s.data)

/-- Boolean `≤` on naturals, for sorting hour buckets. -/
def natLeB (a b : Nat) : Bool := decide (a ≤ b)

/-- Insert `a` into `l` before the first element `b` with `le a b`. -/
def insertLe (le : α → α → Bool) (a : α) : List α → List α
  | [] => [a]
  | b :: l => if le a b then a :: b :: l else b :: insertLe le a l

/-- Insertion sort by a boolean `le`; models Python's `sorted` / `.sort()`
(on the lists sorted here all elements are distinct, so any correct sort
produces the same result as Timsort). -/
def sortLe (le : α → α → Bool) : List α → List α
  | [] => []
  | a :: l => insertLe le a (sortLe le l)

/-! ## The timestamp parse

The source calls `datetime.strptime(timestamp_str, '%Y-%m-%dT%H:%M:%S')` and
catches `ValueError`.  CPython's `_strptime` compiles the format into the
regex `(?P<Y>\d\d\d\d)-(?P<m>1[0-2]|0[1-9]|[1-9])-(?P<d>3[01]|[12]\d|0[1-9]|[1-9])T(?P<H>2[0-3]|[0-1]\d|\d):(?P<M>[0-5]\d|\d):(?P<S>6[0-1]|[0-5]\d|\d)`
with `re.IGNORECASE` (so the literal `T` also matches `t`), requires the whole
string to be consumed, and then builds a `datetime`, which additionally
validates the day against the month length (and rejects year 0 and seconds
60/61, which the `%S` regex alone would admit; folding that rejection into the
seconds bound below yields the same accepted set, since `%S` is the final
field).  Note the component regexes accept values WITHOUT zero padding.

Because every component is followed by a fixed non-digit literal (or the end
of the string), regex backtracking reduces to: if the next two characters are
digits, the two-digit alternatives must match them (an acceptable two-digit
value) or the whole parse fails; a one-digit alternative applies exactly when
the character after the first digit is not a digit.  `parse2` implements this.
-/

/-- Numeric value of a decimal digit character. -/
def digitVal (c : Char) : Nat := c.toNat - '0'.toNat

/-- Parse one field matched by a regex of shape `⟨two-digit alts⟩|⟨one-digit alt⟩`:
`ok2` is the acceptable set of two-digit values, `ok1` of one-digit values. -/
def parse2 (ok2 ok1 : Nat → Bool) : List Char → Option (Nat × List Char)
  | [] => none
  | [c] =>
    if c.isDigit then
      if ok1 (digitVal c) then some (digitVal c, []) else none
    else none
  | c₁ :: c₂ :: rest =>
    if c₁.isDigit then
      if c₂.isDigit then
        let v := 10 * digitVal c₁ + digitVal c₂
        if ok2 v then some (v, rest) else none
      else
        if ok1 (digitVal c₁) then some (digitVal c₁, c₂ :: rest) else none
    else none

/-- Parse exactly four digits (the `%Y` field). -/
def parseYear4 : List Char → Option (Nat × List Char)
  | a :: b :: c :: d :: rest =>
    if a.isDigit && b.isDigit && c.isDigit && d.isDigit then
      some (1000 * digitVal a + 100 * digitVal b + 10 * digitVal c + digitVal d, rest)
    else none
  | _ => none

/-- Consume one expected literal character. -/
def expectChar (c : Char) : List Char → Option (List Char)
  | x :: rest => if x = c then some rest else none
  | [] => none

/-- Consume the literal `T` of the format; the format regex is compiled with
`re.IGNORECASE`, so a lowercase `t` also matches. -/
def expectTee (l : List Char) : Option (List Char) :=
  match expectChar 'T' l with
  | some r => some r
  | none => expectChar 't' l

/-- Gregorian leap-year rule used by `datetime`. -/
def isLeapYear (y : Nat) : Bool :=
  y % 4 == 0 && (y % 100 != 0 || y % 400 == 0)

/-- Number of days in a month, as validated by the `datetime` constructor. -/
def daysInMonth (y m : Nat) : Nat :=
  if m = 2 then (if isLeapYear y then 29 else 28)
  else if m = 4 ∨ m = 6 ∨ m = 9 ∨ m = 11 then 30 else 31

/-- Embeds `datetime.strptime(s, '%Y-%m-%dT%H:%M:%S').hour`, returning `none` where
Python raises `ValueError`.  See the module comment above for the regex this
implements. -/
def strptimeHour (s : String) : Option Nat := do
  let (y, r₁) ← parseYear4 s.data
  let r₂ ← expectChar '-' r₁
  let (mo, r₃) ← parse2 (fun v => decide (1 ≤ v) && decide (v ≤ 12)) (fun v => decide (1 ≤ v)) r₂
  let r₄ ← expectChar '-' r₃
  let (d, r₅) ← parse2 (fun v => decide (1 ≤ v) && decide (v ≤ 31)) (fun v => decide (1 ≤ v)) r₄
  let r₆ ← expectTee r₅
  let (h, r₇) ← parse2 (fun v => decide (v ≤ 23)) (fun _ => true) r₆
  let r₈ ← expectChar ':' r₇
  let (_mi, r₉) ← parse2 (fun v => decide (v ≤ 59)) (fun _ => true) r₈
  let r₁₀ ← expectChar ':' r₉
  let (_se, r₁₁) ← parse2 (fun v => decide (v ≤ 59)) (fun _ => true) r₁₀
  if r₁₁ = [] ∧ 1 ≤ y ∧ d ≤ daysInMonth y mo then some h else none

/-! ## Records and field extraction -/

/-- One row of the input CSV as delivered by `csv.DictReader`: each relevant
column is either absent (`none`) or holds a string.  Extra columns are ignored
by the aggregators and therefore not modelled. -/
structure AccessRecord where
  CardFirstName : Option String
  CardBatch : Option String
  CardNumber : Option String
  AccessTimestamp : Option String
deriving DecidableEq

/-- Embeds `record.get('CardFirstName', '').strip()` — the unit identifier. -/
def unit_number (r : AccessRecord) : String := pyStrip (r.CardFirstName.getD "")

/-- Embeds `record.get('AccessTimestamp', '').strip()`. -/
def timestamp_str (r : AccessRecord) : String := pyStrip (r.AccessTimestamp.getD "")

/-- Embeds `record.get('CardBatch', '').strip()`. -/
def card_batch (r : AccessRecord) : String := pyStrip (r.CardBatch.getD "")

/-- Embeds `record.get('CardNumber', '').strip()`. -/
def card_number (r : AccessRecord) : String := pyStrip (r.CardNumber.getD "")

/-- Embeds the f-string join of batch and number with `-` — the derived fob identifier. -/
def fob_id (r : AccessRecord) : String := card_batch r ++ "-" ++ card_number r

/-! ## Busy-time report -/

/-- The contribution of one record to `unit_hour_counts`: the `(unit, hour)`
pair incremented by the loop body, or `none` if the record is skipped
(empty unit, empty timestamp, or `ValueError` from `strptime`). -/
def busyEntry (r : AccessRecord) : Option (String × Nat) :=
  if unit_number r = "" ∨ timestamp_str r = "" then none
  else
    match strptimeHour (timestamp_str r) with
    | some hour => some (unit_number r, hour)
    | none => none

/-- All `(unit, hour)` increments performed by the loop, in order. -/
def busyPairs (data : List AccessRecord) : List (String × Nat) :=
  data.filterMap busyEntry

/-- Embeds `unit_hour_counts[u][h]` as a function of the increment list. -/
def histCountP (pairs : List (String × Nat)) (u : String) (h : Nat) : Nat :=
  pairs.count (u, h)

/-- The keys of the inner dict `unit_hour_counts[u]`: hours incremented at
least once for `u` (order irrelevant downstream, everything is re-sorted). -/
def unitHoursP (pairs : List (String × Nat)) (u : String) : List Nat :=
  ((pairs.filter (fun p => p.1 = u)).map Prod.snd).dedup

/-- Embeds `max(hour_counts.values())` for unit `u` (0 if `u` has no entries; the
source only evaluates it for units with at least one entry). -/
def maxCountP (pairs : List (String × Nat)) (u : String) : Nat :=
  ((unitHoursP pairs u).map (fun h => histCountP pairs u h)).foldr max 0

/-- Embeds `busiest_hours`, after the `.sort()` call: the hours of `u` attaining the
maximal count, ascending. -/
def busiestHoursP (pairs : List (String × Nat)) (u : String) : List Nat :=
  sortLe natLeB ((unitHoursP pairs u).filter (fun h => histCountP pairs u h = maxCountP pairs u))

/-- Embeds the `busiest_time` join of the formatted hours with `; `. -/
def busiestTimeP (pairs : List (String × Nat)) (u : String) : String :=
  String.intercalate "; " ((busiestHoursP pairs u).map (fun h => toString h ++ ":00"))

/-- The keys of `unit_busy_times`, sorted as by `sorted(...items())` (keys are
distinct, so the tuple comparison orders by unit alone). -/
def busyUnitsP (pairs : List (String × Nat)) : List String :=
  sortLe strLe (pairs.map Prod.fst).dedup

/-- The `report_lines` list, as a function of the increment list. -/
def busyLinesP (pairs : List (String × Nat)) : List String :=
  "Unit Number (First Name),Busiest Time(s) (Hour:Minute)" ::
    (busyUnitsP pairs).map (fun u => u ++ "," ++ busiestTimeP pairs u)

/-- The returned `report_content`, as a function of the increment list. -/
def renderBusy (pairs : List (String × Nat)) : String :=
  String.intercalate "\n" (busyLinesP pairs)

/-- Embeds `unit_hour_counts[u][h]`: the number of increments of `(u, h)`. -/
def histCount (data : List AccessRecord) (u : String) (h : Nat) : Nat :=
  histCountP (busyPairs data) u h

/-- The hours observed for unit `u`. -/
def unitHours (data : List AccessRecord) (u : String) : List Nat :=
  unitHoursP (busyPairs data) u

/-- The maximal hour count of unit `u`. -/
def maxCount (data : List AccessRecord) (u : String) : Nat :=
  maxCountP (busyPairs data) u

/-- The sorted maximal hours of unit `u`. -/
def busiest_hours (data : List AccessRecord) (u : String) : List Nat :=
  busiestHoursP (busyPairs data) u

/-- The `busiest_time` field of unit `u`. -/
def busiest_time (data : List AccessRecord) (u : String) : String :=
  busiestTimeP (busyPairs data) u

/-- The sorted keys of `unit_busy_times`. -/
def busyUnitsSorted (data : List AccessRecord) : List String :=
  busyUnitsP (busyPairs data)

/-- The `report_lines` list of the busy-time report. -/
def busyReportLines (data : List AccessRecord) : List String :=
  busyLinesP (busyPairs data)

/-- Embeds `generate_busy_time_report` (the returned `report_content` string). -/
def generate_busy_time_report (data : List AccessRecord) : String :=
  renderBusy (busyPairs data)

/-! ## Unit-fob report -/

/-- The contribution of one record to `unit_fobs`: the `(unit, fob_id)` pair
added by the loop body, or `none` if the unit identifier is empty. -/
def fobEntry (r : AccessRecord) : Option (String × String) :=
  if unit_number r = "" then none else some (unit_number r, fob_id r)

/-- All `(unit, fob_id)` insertions performed by the loop, in order. -/
def fobPairs (data : List AccessRecord) : List (String × String) :=
  data.filterMap fobEntry

/-- Embeds `sorted(unit_fobs[u])` as a function of the insertion list. -/
def fobIdsP (pairs : List (String × String)) (u : String) : List String :=
  sortLe strLe ((pairs.filter (fun p => p.1 = u)).map Prod.snd).dedup

/-- The sorted keys of `unit_fobs`, as a function of the insertion list. -/
def fobUnitsP (pairs : List (String × String)) : List String :=
  sortLe strLe (pairs.map Prod.fst).dedup

/-- The `report_lines` list, as a function of the insertion list. -/
def fobLinesP (pairs : List (String × String)) : List String :=
  "Unit Number (First Name),Fob IDs (CardBatch-CardNumber)" ::
    (fobUnitsP pairs).map
      (fun u => u ++ "," ++ String.intercalate "; " (fobIdsP pairs u))

/-- The returned `report_content`, as a function of the insertion list. -/
def renderFob (pairs : List (String × String)) : String :=
  String.intercalate "\n" (fobLinesP pairs)

/-- Embeds `sorted(unit_fobs[u])`: the distinct fob ids of unit `u`, sorted. -/
def fobIdsSorted (data : List AccessRecord) (u : String) : List String :=
  fobIdsP (fobPairs data) u

/-- The keys of `unit_fobs`, sorted as by `sorted(...items())`. -/
def fobUnitsSorted (data : List AccessRecord) : List String :=
  fobUnitsP (fobPairs data)

/-- The `report_lines` list of the unit-fob report. -/
def fobReportLines (data : List AccessRecord) : List String :=
  fobLinesP (fobPairs data)

/-- Embeds `generate_unit_fob_report` (the returned `report_content` string). -/
def generate_unit_fob_report (data : List AccessRecord) : String :=
  renderFob (fobPairs data)

/-! ## Order properties of the comparisons -/

theorem charToNat_inj {a b : Char} (h : a.toNat = b.toNat) : a = b := by
  apply Char.ext
  apply UInt32.ext
  simpa [Char.toNat, UInt32.toNat] using h

theorem lexLt_asymm : ∀ {a b : List Char}, lexLt a b = true → lexLt b a = false
  | [], [] => by simp [lexLt]
  | [], _ :: _ => by simp [lexLt]
  | _ :: _, [] => by simp [lexLt]
  | a :: as, b :: bs => by
    simp only [lexLt]
    intro h
    by_cases hab : a = b
    · subst hab
      rw [if_pos rfl] at h ⊢
      exact lexLt_asymm h
    · rw [if_neg hab] at h
      rw [if_neg (Ne.symm hab)]
      have h' := of_decide_eq_true h
      exact decide_eq_false (by omega)

theorem lexLt_trans : ∀ {a b c : List Char},
    lexLt a b = true → lexLt b c = true → lexLt a c = true
  | [], [], _ => by simp [lexLt]
  | [], _ :: _, [] => by simp [lexLt]
  | [], _ :: _, _ :: _ => by simp [lexLt]
  | _ :: _, [], _ => by simp [lexLt]
  | _ :: _, _ :: _, [] => by simp [lexLt]
  | a :: as, b :: bs, c :: cs => by
    simp only [lexLt]
    intro h₁ h₂
    by_cases hab : a = b <;> by_cases hbc : b = c
    · subst hab; subst hbc
      rw [if_pos rfl] at h₁ h₂ ⊢
      exact lexLt_trans h₁ h₂
    · subst hab
      rw [if_pos rfl] at h₁
      rw [if_neg hbc] at h₂ ⊢
      exact h₂
    · subst hbc
      rw [if_neg hab] at h₁
      rw [if_pos rfl] at h₂
      rw [if_neg hab]
      exact h₁
    · rw [if_neg hab] at h₁
      rw [if_neg hbc] at h₂
      have hac : a ≠ c := by
        intro he
        subst he
        simp only [charLtB, decide_eq_true_eq] at h₁ h₂
        omega
      rw [if_neg hac]
      simp only [charLtB, decide_eq_true_eq] at h₁ h₂ ⊢
      omega

theorem lexLt_connex : ∀ {a b : List Char}, a ≠ b → lexLt a b = true ∨ lexLt b a = true
  | [], [], h => absurd rfl h
  | [], _ :: _, _ => Or.inl (by simp [lexLt])
  | _ :: _, [], _ => Or.inr (by simp [lexLt])
  | a :: as, b :: bs, h => by
    by_cases hab : a = b
    · subst hab
      have htl : as ≠ bs := fun he => h (by rw [he])
      simp only [lexLt, if_pos rfl]
      exact lexLt_connex htl
    · have hN : a.toNat ≠ b.toNat := fun he => hab (charToNat_inj he)
      simp only [lexLt, if_neg hab, if_neg (Ne.symm hab), charLtB, decide_eq_true_eq]
      omega

theorem string_data_inj {s t : String} (h : s.data = t.data) : s = t :=
  String.toList_inj.mp h

theorem strLe_total (s t : String) : strLe s t = true ∨ strLe t s = true := by
  simp only [strLe, Bool.not_eq_true']
  cases h : lexLt t.data s.data with
  | false => exact Or.inl rfl
  | true => exact Or.inr (lexLt_asymm h)

theorem strLe_trans (s t u : String) (h₁ : strLe s t = true) (h₂ : strLe t u = true) :
    strLe s u = true := by
  simp only [strLe, Bool.not_eq_true'] at h₁ h₂ ⊢
  by_cases he : u.data = t.data
  · rw [he]
    exact h₁
  · cases hus : lexLt u.data s.data with
    | false => rfl
    | true =>
      rcases lexLt_connex he with hut | htu
      · simp [hut] at h₂
      · have := lexLt_trans htu hus
        simp [this] at h₁

theorem strLe_antisymm (s t : String) (h₁ : strLe s t = true) (h₂ : strLe t s = true) :
    s = t := by
  simp only [strLe, Bool.not_eq_true'] at h₁ h₂
  by_contra hne
  have hd : s.data ≠ t.data := fun he => hne (string_data_inj he)
  rcases lexLt_connex hd with h | h
  · rw [h] at h₂
    exact Bool.noConfusion h₂
  · rw [h] at h₁
    exact Bool.noConfusion h₁

theorem strLt_of_strLe_ne {s t : String} (h : strLe s t = true) (hne : s ≠ t) :
    strLt s t = true := by
  simp only [strLe, Bool.not_eq_true'] at h
  have hd : s.data ≠ t.data := fun he => hne (string_data_inj he)
  rcases lexLt_connex hd with h' | h'
  · exact h'
  · rw [h'] at h
    exact Bool.noConfusion h

theorem natLeB_total (a b : Nat) : natLeB a b = true ∨ natLeB b a = true := by
  simp only [natLeB, decide_eq_true_eq]
  omega

theorem natLeB_trans (a b c : Nat) (h₁ : natLeB a b = true) (h₂ : natLeB b c = true) :
    natLeB a c = true := by
  simp only [natLeB, decide_eq_true_eq] at h₁ h₂ ⊢
  omega

theorem natLeB_antisymm (a b : Nat) (h₁ : natLeB a b = true) (h₂ : natLeB b a = true) :
    a = b := by
  simp only [natLeB, decide_eq_true_eq] at h₁ h₂
  omega

/-! ## Sorting lemmas -/

theorem insertLe_perm (le : α → α → Bool) (a : α) :
    ∀ l : List α, List.Perm (insertLe le a l) (a :: l)
  | [] => List.Perm.refl _
  | b :: l => by
    simp only [insertLe]
    by_cases h : le a b = true
    · rw [if_pos h]
    · rw [if_neg h]
      exact (List.Perm.cons b (insertLe_perm le a l)).trans (List.Perm.swap a b l)

theorem sortLe_perm (le : α → α → Bool) : ∀ l : List α, List.Perm (sortLe le l) l
  | [] => List.Perm.refl _
  | a :: l => (insertLe_perm le a _).trans (List.Perm.cons a (sortLe_perm le l))

theorem mem_sortLe (le : α → α → Bool) {a : α} {l : List α} :
    a ∈ sortLe le l ↔ a ∈ l :=
  (sortLe_perm le l).mem_iff

theorem nodup_sortLe (le : α → α → Bool) {l : List α} (h : l.Nodup) :
    (sortLe le l).Nodup :=
  ((sortLe_perm le l).nodup_iff).mpr h

theorem pairwise_insertLe (le : α → α → Bool)
    (tot : ∀ a b, le a b = true ∨ le b a = true)
    (tr : ∀ a b c, le a b = true → le b c = true → le a c = true)
    (a : α) : ∀ {l : List α}, l.Pairwise (fun x y => le x y = true) →
      (insertLe le a l).Pairwise (fun x y => le x y = true)
  | [], _ => by simp [insertLe]
  | b :: l, h => by
    simp only [insertLe]
    rcases List.pairwise_cons.mp h with ⟨hb, hl⟩
    by_cases hab : le a b = true
    · rw [if_pos hab]
      refine List.pairwise_cons.mpr ⟨?_, h⟩
      intro x hx
      rcases List.mem_cons.mp hx with rfl | hx
      · exact hab
      · exact tr a b x hab (hb x hx)
    · rw [if_neg hab]
      refine List.pairwise_cons.mpr ⟨?_, pairwise_insertLe le tot tr a hl⟩
      intro x hx
      rcases List.mem_cons.mp ((insertLe_perm le a l).mem_iff.mp hx) with rfl | hx
      · rcases tot x b with h₁ | h₁
        · exact absurd h₁ hab
        · exact h₁
      · exact hb x hx

theorem pairwise_sortLe (le : α → α → Bool)
    (tot : ∀ a b, le a b = true ∨ le b a = true)
    (tr : ∀ a b c, le a b = true → le b c = true → le a c = true) :
    ∀ l : List α, (sortLe le l).Pairwise (fun x y => le x y = true)
  | [] => by simp [sortLe]
  | a :: l => pairwise_insertLe le tot tr a (pairwise_sortLe le tot tr l)

theorem sortLe_eq_of_mem (le : α → α → Bool)
    (tot : ∀ a b, le a b = true ∨ le b a = true)
    (tr : ∀ a b c, le a b = true → le b c = true → le a c = true)
    (anti : ∀ a b, le a b = true → le b a = true → a = b)
    {l₁ l₂ : List α} (h₁ : l₁.Nodup) (h₂ : l₂.Nodup)
    (hs₂ : l₂.Pairwise (fun x y => le x y = true))
    (hm : ∀ a, a ∈ l₁ ↔ a ∈ l₂) : sortLe le l₁ = l₂ := by
  haveI : IsAntisymm α (fun x y => le x y = true) := ⟨anti⟩
  refine List.eq_of_perm_of_sorted ?_ (pairwise_sortLe le tot tr l₁) hs₂
  exact (sortLe_perm le l₁).trans ((List.perm_ext_iff_of_nodup h₁ h₂).mpr hm)

theorem pairwise_strict (lt le : α → α → Bool)
    (hstep : ∀ a b, le a b = true → a ≠ b → lt a b = true)
    {l : List α} (hs : l.Pairwise (fun x y => le x y = true)) (hn : l.Nodup) :
    l.Pairwise (fun x y => lt x y = true) :=
  (hs.and hn).imp fun h => hstep _ _ h.1 h.2

/-! ## Characterizations of the per-record contributions -/

theorem busyEntry_eq_some {r : AccessRecord} {u : String} {h : Nat} :
    busyEntry r = some (u, h) ↔
      unit_number r = u ∧ u ≠ "" ∧ timestamp_str r ≠ "" ∧
        strptimeHour (timestamp_str r) = some h := by
  unfold busyEntry
  by_cases h₁ : unit_number r = "" ∨ timestamp_str r = ""
  · rw [if_pos h₁]
    refine iff_of_false (fun hc => Option.noConfusion hc) ?_
    rintro ⟨rfl, h₂, h₃, -⟩
    rcases h₁ with h₁ | h₁
    · exact h₂ h₁
    · exact h₃ h₁
  · rw [if_neg h₁]
    push_neg at h₁
    cases hp : strptimeHour (timestamp_str r) with
    | none =>
      refine iff_of_false (fun hc => Option.noConfusion hc) ?_
      rintro ⟨-, -, -, h₄⟩
      exact Option.noConfusion h₄
    | some k =>
      simp only [Option.some.injEq, Prod.mk.injEq]
      constructor
      · rintro ⟨rfl, rfl⟩
        exact ⟨rfl, h₁.1, h₁.2, rfl⟩
      · rintro ⟨rfl, -, -, rfl⟩
        exact ⟨rfl, rfl⟩

theorem fobEntry_eq_some {r : AccessRecord} {u i : String} :
    fobEntry r = some (u, i) ↔ unit_number r = u ∧ u ≠ "" ∧ fob_id r = i := by
  unfold fobEntry
  by_cases h₁ : unit_number r = ""
  · rw [if_pos h₁]
    refine iff_of_false (fun hc => Option.noConfusion hc) ?_
    rintro ⟨rfl, h₂, -⟩
    exact h₂ h₁
  · rw [if_neg h₁]
    simp only [Option.some.injEq, Prod.mk.injEq]
    constructor
    · rintro ⟨rfl, rfl⟩
      exact ⟨rfl, h₁, rfl⟩
    · rintro ⟨rfl, -, rfl⟩
      exact ⟨rfl, rfl⟩

theorem count_filterMap_eq_countP {α β : Type} [BEq β] [LawfulBEq β]
    (f : α → Option β) (b : β) :
    ∀ l : List α, (l.filterMap f).count b = l.countP (fun a => f a == some b)
  | [] => rfl
  | a :: l => by
    cases hf : f a with
    | none =>
      simp only [List.filterMap_cons, hf, List.countP_cons]
      rw [count_filterMap_eq_countP f b l]
      simp [hf]
    | some c =>
      simp only [List.filterMap_cons, hf, List.countP_cons, List.count_cons]
      rw [count_filterMap_eq_countP f b l]
      by_cases hcb : c = b
      · subst hcb
        simp [hf]
      · simp [hf, hcb]

/-! ## Congruence of the reports in the contribution lists -/

theorem busy_report_congr {d₁ d₂ : List AccessRecord}
    (h : busyPairs d₁ = busyPairs d₂) :
    generate_busy_time_report d₁ = generate_busy_time_report d₂ := by
  rw [generate_busy_time_report, generate_busy_time_report, h]

theorem fob_report_congr {d₁ d₂ : List AccessRecord}
    (h : fobPairs d₁ = fobPairs d₂) :
    generate_unit_fob_report d₁ = generate_unit_fob_report d₂ := by
  rw [generate_unit_fob_report, generate_unit_fob_report, h]

/-! ## Small facts about `foldr max` and `String.intercalate` -/

theorem le_foldr_max : ∀ {l : List Nat} {a : Nat}, a ∈ l → a ≤ l.foldr max 0
  | b :: l, a, h => by
    rcases List.mem_cons.mp h with rfl | h
    · exact Nat.le_max_left _ _
    · exact Nat.le_trans (le_foldr_max h) (Nat.le_max_right _ _)

theorem foldr_max_mem : ∀ l : List Nat, l.foldr max 0 ∈ l ∨ l.foldr max 0 = 0
  | [] => Or.inr rfl
  | a :: l => by
    rcases Nat.le_total (l.foldr max 0) a with h | h
    · left
      rw [List.foldr_cons, Nat.max_eq_left h]
      exact List.mem_cons_self a l
    · rw [List.foldr_cons, Nat.max_eq_right h]
      rcases foldr_max_mem l with h' | h'
      · exact Or.inl (List.mem_cons_of_mem a h')
      · exact Or.inr h'

theorem intercalate_go_append (s : String) :
    ∀ (l : List String) (acc : String), ∃ z, String.intercalate.go acc s l = acc ++ z
  | [], acc => ⟨"", by rw [String.intercalate.go, String.append_empty]⟩
  | a :: l, acc => by
    obtain ⟨z, hz⟩ := intercalate_go_append s l (acc ++ s ++ a)
    refine ⟨s ++ a ++ z, ?_⟩
    rw [String.intercalate.go, hz]
    simp [String.append_assoc]

theorem intercalate_head (s h : String) (t : List String) :
    ∃ z, String.intercalate s (h :: t) = h ++ z := by
  rw [String.intercalate]
  exact intercalate_go_append s t h

/-! ## Bounds from the parse -/

theorem digitVal_le_9 {c : Char} (h : c.isDigit = true) : digitVal c ≤ 9 := by
  simp only [Char.isDigit, Bool.and_eq_true, decide_eq_true_eq] at h
  have h2 : c.toNat ≤ 57 := by
    simpa [Char.toNat, UInt32.toNat, UInt32.le_def, BitVec.le_def] using h.2
  have h0 : ('0').toNat = 48 := rfl
  simp only [digitVal, h0]
  omega

theorem parse2_ok {ok2 ok1 : Nat → Bool} :
    ∀ {l : List Char} {v : Nat} {rest : List Char},
      parse2 ok2 ok1 l = some (v, rest) → ok2 v = true ∨ (ok1 v = true ∧ v ≤ 9)
  | [], v, rest => by simp [parse2]
  | [c], v, rest => by
    simp only [parse2]
    split
    · split
      · rename_i h1 h2
        intro h3
        simp only [Option.some.injEq, Prod.mk.injEq] at h3
        obtain ⟨rfl, -⟩ := h3
        exact Or.inr ⟨h2, digitVal_le_9 h1⟩
      · exact fun h => Option.noConfusion h
    · exact fun h => Option.noConfusion h
  | c₁ :: c₂ :: l, v, rest => by
    simp only [parse2]
    split
    · split
      · split
        · rename_i h1 h2 h3
          intro h4
          simp only [Option.some.injEq, Prod.mk.injEq] at h4
          obtain ⟨rfl, -⟩ := h4
          exact Or.inl h3
        · exact fun h => Option.noConfusion h
      · split
        · rename_i h1 h2 h3
          intro h4
          simp only [Option.some.injEq, Prod.mk.injEq] at h4
          obtain ⟨rfl, -⟩ := h4
          exact Or.inr ⟨h3, digitVal_le_9 h1⟩
        · exact fun h => Option.noConfusion h
    · exact fun h => Option.noConfusion h

theorem strptimeHour_lt24 {s : String} {h : Nat} (hp : strptimeHour s = some h) :
    h < 24 := by
  simp only [strptimeHour, bind, Option.bind_eq_some] at hp
  obtain ⟨⟨y, r₁⟩, hy, hp⟩ := hp
  obtain ⟨r₂, h2, hp⟩ := hp
  obtain ⟨⟨mo, r₃⟩, h3, hp⟩ := hp
  obtain ⟨r₄, h4, hp⟩ := hp
  obtain ⟨⟨d, r₅⟩, h5, hp⟩ := hp
  obtain ⟨r₆, h6, hp⟩ := hp
  obtain ⟨⟨hh, r₇⟩, h7, hp⟩ := hp
  obtain ⟨r₈, h8, hp⟩ := hp
  obtain ⟨⟨mi, r₉⟩, h9, hp⟩ := hp
  obtain ⟨r₁₀, h10, hp⟩ := hp
  obtain ⟨⟨se, r₁₁⟩, h11, hp⟩ := hp
  have hb : hh ≤ 23 := by
    rcases parse2_ok h7 with hc | hc
    · exact of_decide_eq_true hc
    · omega
  split at hp
  · simp only [Option.some.injEq] at hp
    omega
  · exact absurd hp (by simp)

/-! ## Membership in the sorted key lists -/

theorem mem_busyUnitsSorted {data : List AccessRecord} {u : String} :
    u ∈ busyUnitsSorted data ↔ ∃ h, (u, h) ∈ busyPairs data := by
  rw [busyUnitsSorted, busyUnitsP, mem_sortLe, List.mem_dedup]
  constructor
  · intro hm
    obtain ⟨a, ha, hfa⟩ := List.mem_map.mp hm
    refine ⟨a.2, ?_⟩
    have he : (u, a.2) = a := by rw [← hfa]
    rw [he]
    exact ha
  · rintro ⟨k, hk⟩
    exact List.mem_map.mpr ⟨(u, k), hk, rfl⟩

theorem mem_unitHours {data : List AccessRecord} {u : String} {h : Nat} :
    h ∈ unitHours data u ↔ (u, h) ∈ busyPairs data := by
  rw [unitHours, unitHoursP, List.mem_dedup]
  constructor
  · intro hm
    obtain ⟨a, ha, hfa⟩ := List.mem_map.mp hm
    obtain ⟨ha', hu⟩ := List.mem_filter.mp ha
    have hu' : a.1 = u := by simpa using hu
    have he : (u, h) = a := by rw [← hu', ← hfa]
    rw [he]
    exact ha'
  · intro hm
    exact List.mem_map.mpr ⟨(u, h), List.mem_filter.mpr ⟨hm, by simp⟩, rfl⟩

theorem mem_fobUnitsSorted {data : List AccessRecord} {u : String} :
    u ∈ fobUnitsSorted data ↔ ∃ i, (u, i) ∈ fobPairs data := by
  rw [fobUnitsSorted, fobUnitsP, mem_sortLe, List.mem_dedup]
  constructor
  · intro hm
    obtain ⟨a, ha, hfa⟩ := List.mem_map.mp hm
    refine ⟨a.2, ?_⟩
    have he : (u, a.2) = a := by rw [← hfa]
    rw [he]
    exact ha
  · rintro ⟨k, hk⟩
    exact List.mem_map.mpr ⟨(u, k), hk, rfl⟩

theorem mem_fobIdsSorted {data : List AccessRecord} {u i : String} :
    i ∈ fobIdsSorted data u ↔ (u, i) ∈ fobPairs data := by
  rw [fobIdsSorted, fobIdsP, mem_sortLe, List.mem_dedup]
  constructor
  · intro hm
    obtain ⟨a, ha, hfa⟩ := List.mem_map.mp hm
    obtain ⟨ha', hu⟩ := List.mem_filter.mp ha
    have hu' : a.1 = u := by simpa using hu
    have he : (u, i) = a := by rw [← hu', ← hfa]
    rw [he]
    exact ha'
  · intro hm
    exact List.mem_map.mpr ⟨(u, i), List.mem_filter.mpr ⟨hm, by simp⟩, rfl⟩

/-! ## Exception-explicit embedding of the aggregators

The only operation in either report loop that can raise is
`datetime.strptime`, which raises `ValueError` on a failed parse; the source
wraps it in `try ... except ValueError: continue`.  The embedding below makes
the exception flow explicit: the loop is a monadic fold in `Except PyExc`, and
an uncaught exception would abort the whole function. -/

inductive PyExc where
  | valueError : String → PyExc
deriving DecidableEq

/-- Embeds `datetime.strptime(s, '%Y-%m-%dT%H:%M:%S').hour` with the raised
`ValueError` made explicit. -/
def strptimeHourE (s : String) : Except PyExc Nat :=
  match strptimeHour s with
  | some h => Except.ok h
  | none => Except.error (PyExc.valueError "time data does not match format")

/-- The body of the busy-time `for record in self.data` loop, including its
`try ... except ValueError: continue`. -/
def busyStepE (acc : List (String × Nat)) (r : AccessRecord) :
    Except PyExc (List (String × Nat)) :=
  if unit_number r = "" ∨ timestamp_str r = "" then Except.ok acc
  else
    match strptimeHourE (timestamp_str r) with
    | Except.ok hour => Except.ok (acc ++ [(unit_number r, hour)])
    | Except.error (PyExc.valueError _) => Except.ok acc

/-- The body of the unit-fob loop (no operation in it can raise). -/
def fobStepE (acc : List (String × String)) (r : AccessRecord) :
    Except PyExc (List (String × String)) :=
  if unit_number r = "" then Except.ok acc
  else Except.ok (acc ++ [(unit_number r, fob_id r)])

/-- Embeds `generate_busy_time_report` with exception flow explicit. -/
def generate_busy_time_reportE (data : List AccessRecord) : Except PyExc String :=
  (List.foldlM busyStepE [] data).map renderBusy

/-- Embeds `generate_unit_fob_report` with exception flow explicit. -/
def generate_unit_fob_reportE (data : List AccessRecord) : Except PyExc String :=
  (List.foldlM fobStepE [] data).map renderFob

theorem busy_foldlM_ok : ∀ (data : List AccessRecord) (acc : List (String × Nat)),
    List.foldlM busyStepE acc data = Except.ok (acc ++ busyPairs data)
  | [], acc => by
    simp only [List.foldlM_nil, busyPairs, List.filterMap_nil, List.append_nil]
    rfl
  | r :: data, acc => by
    have step : busyStepE acc r = Except.ok (acc ++ (busyEntry r).toList) := by
      unfold busyStepE busyEntry
      by_cases h : unit_number r = "" ∨ timestamp_str r = ""
      · rw [if_pos h, if_pos h]
        simp
      · rw [if_neg h, if_neg h]
        cases hp : strptimeHour (timestamp_str r) with
        | none => simp [strptimeHourE, hp]
        | some k => simp [strptimeHourE, hp]
    rw [List.foldlM_cons, step]
    show List.foldlM busyStepE (acc ++ (busyEntry r).toList) data = _
    rw [busy_foldlM_ok data]
    cases he : busyEntry r with
    | none => simp [he, busyPairs, List.filterMap_cons]
    | some p => simp [he, busyPairs, List.filterMap_cons]

theorem fob_foldlM_ok : ∀ (data : List AccessRecord) (acc : List (String × String)),
    List.foldlM fobStepE acc data = Except.ok (acc ++ fobPairs data)
  | [], acc => by
    simp only [List.foldlM_nil, fobPairs, List.filterMap_nil, List.append_nil]
    rfl
  | r :: data, acc => by
    have step : fobStepE acc r = Except.ok (acc ++ (fobEntry r).toList) := by
      unfold fobStepE fobEntry
      by_cases h : unit_number r = ""
      · rw [if_pos h, if_pos h]
        simp
      · rw [if_neg h, if_neg h]
        simp
    rw [List.foldlM_cons, step]
    show List.foldlM fobStepE (acc ++ (fobEntry r).toList) data = _
    rw [fob_foldlM_ok data]
    cases he : fobEntry r with
    | none => simp [he, fobPairs, List.filterMap_cons]
    | some p => simp [he, fobPairs, List.filterMap_cons]

/-! ## Spec-side definition for the strict-format claim

Modelled from the spec: the claimed STRICT timestamp shape — 4-digit year,
`-`, 2-digit month, `-`, 2-digit day, literal `T`, 2-digit hour, `:`, 2-digit
minute, `:`, 2-digit second ("strict parse") — with the value/calendar
validity checks, returning the hour of day. -/
def specStrictHour (s : String) : Option Nat :=
  match s.data with
  | [y₁, y₂, y₃, y₄, c₁, m₁, m₂, c₂, d₁, d₂, c₃, h₁, h₂, c₄, mi₁, mi₂, c₅, s₁, s₂] =>
    if (y₁.isDigit && y₂.isDigit && y₃.isDigit && y₄.isDigit &&
        m₁.isDigit && m₂.isDigit && d₁.isDigit && d₂.isDigit &&
        h₁.isDigit && h₂.isDigit && mi₁.isDigit && mi₂.isDigit &&
        s₁.isDigit && s₂.isDigit) &&
       (c₁ = '-' && c₂ = '-' && c₃ = 'T' && c₄ = ':' && c₅ = ':') then
      let y := 1000 * digitVal y₁ + 100 * digitVal y₂ + 10 * digitVal y₃ + digitVal y₄
      let mo := 10 * digitVal m₁ + digitVal m₂
      let d := 10 * digitVal d₁ + digitVal d₂
      let h := 10 * digitVal h₁ + digitVal h₂
      let mi := 10 * digitVal mi₁ + digitVal mi₂
      let se := 10 * digitVal s₁ + digitVal s₂
      if 1 ≤ y ∧ 1 ≤ mo ∧ mo ≤ 12 ∧ 1 ≤ d ∧ d ≤ daysInMonth y mo ∧
          h ≤ 23 ∧ mi ≤ 59 ∧ se ≤ 59 then
        some h
      else none
    else none
  | _ => none

/-! ## Injectivity of the fob-id join away from the separator -/

theorem append_sep_inj : ∀ (b₁ b₂ n₁ n₂ : List Char), '-' ∉ b₁ → '-' ∉ b₂ →
    b₁ ++ '-' :: n₁ = b₂ ++ '-' :: n₂ → b₁ = b₂ ∧ n₁ = n₂
  | [], [], n₁, n₂, _, _, h => by
    simp only [List.nil_append, List.cons.injEq] at h
    exact ⟨rfl, h.2⟩
  | [], c :: b₂, n₁, n₂, _, hb₂, h => by
    simp only [List.nil_append, List.cons_append, List.cons.injEq] at h
    have : ('-' : Char) ∈ c :: b₂ := by
      rw [h.1]
      exact List.mem_cons_self c b₂
    exact absurd this hb₂
  | c :: b₁, [], n₁, n₂, hb₁, _, h => by
    simp only [List.nil_append, List.cons_append, List.cons.injEq] at h
    have : ('-' : Char) ∈ c :: b₁ := by
      rw [← h.1]
      exact List.mem_cons_self c b₁
    exact absurd this hb₁
  | c₁ :: b₁, c₂ :: b₂, n₁, n₂, hb₁, hb₂, h => by
    simp only [List.cons_append, List.cons.injEq] at h
    obtain ⟨rfl, h₂⟩ := h
    obtain ⟨hb, hn⟩ := append_sep_inj b₁ b₂ n₁ n₂
      (fun hm => hb₁ (List.mem_cons_of_mem _ hm))
      (fun hm => hb₂ (List.mem_cons_of_mem _ hm)) h₂
    exact ⟨by rw [hb], hn⟩

/-! ## More helpers -/

theorem filterMap_eq_nil_of {α β : Type} {f : α → Option β} :
    ∀ {l : List α}, (∀ a ∈ l, f a = none) → l.filterMap f = []
  | [], _ => rfl
  | a :: l, h => by
    rw [List.filterMap_cons, h a (List.mem_cons_self a l)]
    exact filterMap_eq_nil_of (fun b hb => h b (List.mem_cons_of_mem a hb))

theorem sortLe_congr (le : α → α → Bool)
    (tot : ∀ a b, le a b = true ∨ le b a = true)
    (tr : ∀ a b c, le a b = true → le b c = true → le a c = true)
    (anti : ∀ a b, le a b = true → le b a = true → a = b)
    {l₁ l₂ : List α} (h₁ : l₁.Nodup) (h₂ : l₂.Nodup)
    (hm : ∀ a, a ∈ l₁ ↔ a ∈ l₂) : sortLe le l₁ = sortLe le l₂ :=
  sortLe_eq_of_mem le tot tr anti h₁ (nodup_sortLe le h₂)
    (pairwise_sortLe le tot tr l₂)
    (fun a => (hm a).trans (mem_sortLe le).symm)

theorem mem_busyPairs_hour_lt24 {data : List AccessRecord} {u : String} {h : Nat}
    (hm : (u, h) ∈ busyPairs data) : h < 24 := by
  rw [busyPairs] at hm
  obtain ⟨r, -, he⟩ := List.mem_filterMap.mp hm
  exact strptimeHour_lt24 (busyEntry_eq_some.mp he).2.2.2

/-! ## The claims -/

/-- Claim C3: a record whose unit-name field (`CardFirstName`) is missing or
trims to the empty string contributes to neither report: deleting it from the
input changes neither the busy-time report nor the unit-fob report,
regardless of the values of all its other fields. -/
theorem c3_empty_unit_excluded (xs ys : List AccessRecord) (r : AccessRecord)
    (h : unit_number r = "") :
    generate_busy_time_report (xs ++ r :: ys) = generate_busy_time_report (xs ++ ys) ∧
    generate_unit_fob_report (xs ++ r :: ys) = generate_unit_fob_report (xs ++ ys) := by
  have hb : busyEntry r = none := by
    unfold busyEntry
    rw [if_pos (Or.inl h)]
  have hf : fobEntry r = none := by
    unfold fobEntry
    rw [if_pos h]
  constructor
  · apply busy_report_congr
    simp only [busyPairs, List.filterMap_append, List.filterMap_cons, hb]
  · apply fob_report_congr
    simp only [fobPairs, List.filterMap_append, List.filterMap_cons, hf]

/-- Witness for C3 at a concrete input: a whitespace-only unit name with all
other fields populated contributes to neither report. -/
theorem c3_empty_unit_excluded_witness :
    unit_number ⟨some "  ", some "210", some "54321", some "2023-05-15T08:30:00"⟩ = "" ∧
    generate_busy_time_report
        ([⟨some "unit101", some "210", some "54321", some "2023-05-15T08:30:00"⟩] ++
          (⟨some "  ", some "210", some "54321", some "2023-05-15T08:30:00"⟩ : AccessRecord) ::
            []) =
      generate_busy_time_report
        ([⟨some "unit101", some "210", some "54321", some "2023-05-15T08:30:00"⟩] ++ []) ∧
    generate_unit_fob_report
        ([⟨some "unit101", some "210", some "54321", some "2023-05-15T08:30:00"⟩] ++
          (⟨some "  ", some "210", some "54321", some "2023-05-15T08:30:00"⟩ : AccessRecord) ::
            []) =
      generate_unit_fob_report
        ([⟨some "unit101", some "210", some "54321", some "2023-05-15T08:30:00"⟩] ++ []) := by
  refine ⟨by decide, ?_, ?_⟩
  · exact (c3_empty_unit_excluded _ [] _ (by decide)).1
  · exact (c3_empty_unit_excluded _ [] _ (by decide)).2

/-- Claim C7: an input with no qualifying record yields a header-only report
from each aggregator, and for any input at all the fixed header is the first
line of each report. -/
theorem c7_header_only (data : List AccessRecord) :
    ((∀ r ∈ data, fobEntry r = none) →
      generate_unit_fob_report data =
        "Unit Number (First Name),Fob IDs (CardBatch-CardNumber)") ∧
    ((∀ r ∈ data, busyEntry r = none) →
      generate_busy_time_report data =
        "Unit Number (First Name),Busiest Time(s) (Hour:Minute)") ∧
    (∃ z, generate_unit_fob_report data =
      "Unit Number (First Name),Fob IDs (CardBatch-CardNumber)" ++ z) ∧
    (∃ z, generate_busy_time_report data =
      "Unit Number (First Name),Busiest Time(s) (Hour:Minute)" ++ z) := by
  refine ⟨?_, ?_, ?_, ?_⟩
  · intro hno
    rw [generate_unit_fob_report, fobPairs, filterMap_eq_nil_of hno]
    rfl
  · intro hno
    rw [generate_busy_time_report, busyPairs, filterMap_eq_nil_of hno]
    rfl
  · rw [generate_unit_fob_report, renderFob, fobLinesP]
    exact intercalate_head _ _ _
  · rw [generate_busy_time_report, renderBusy, busyLinesP]
    exact intercalate_head _ _ _

/-- Witness for C7 at the empty input: both reports are exactly their fixed
header line. -/
theorem c7_header_only_witness :
    generate_unit_fob_report [] =
      "Unit Number (First Name),Fob IDs (CardBatch-CardNumber)" ∧
    generate_busy_time_report [] =
      "Unit Number (First Name),Busiest Time(s) (Hour:Minute)" :=
  ⟨(c7_header_only []).1 (by simp), (c7_header_only []).2.1 (by simp)⟩

/-- Claim C8: on every input record sequence both aggregators terminate with a
report string and no exception escapes: the exception-explicit embeddings
always return `Except.ok` with exactly the pure reports as values. -/
theorem c8_no_exception (data : List AccessRecord) :
    generate_busy_time_reportE data = Except.ok (generate_busy_time_report data) ∧
    generate_unit_fob_reportE data = Except.ok (generate_unit_fob_report data) := by
  constructor
  · rw [generate_busy_time_reportE, busy_foldlM_ok data [], List.nil_append]
    rfl
  · rw [generate_unit_fob_reportE, fob_foldlM_ok data [], List.nil_append]
    rfl

/-- Claim C9: a unit appears in the busy-time report exactly when some record
for it has a non-empty trimmed unit identifier and a timestamp that parses,
while it appears in the unit-fob report as soon as some record merely has the
non-empty unit identifier — so a unit all of whose timestamps fail to parse is
omitted from the busy-time report yet present in the fob report. -/
theorem c9_busy_unit_presence (data : List AccessRecord) (u : String) :
    (u ∈ busyUnitsSorted data ↔
      ∃ r, r ∈ data ∧ unit_number r = u ∧ u ≠ "" ∧ timestamp_str r ≠ "" ∧
        (strptimeHour (timestamp_str r)).isSome = true) ∧
    (u ∈ fobUnitsSorted data ↔ ∃ r, r ∈ data ∧ unit_number r = u ∧ u ≠ "") := by
  constructor
  · rw [mem_busyUnitsSorted]
    constructor
    · rintro ⟨h, hm⟩
      rw [busyPairs] at hm
      obtain ⟨r, hr, he⟩ := List.mem_filterMap.mp hm
      obtain ⟨h1, h2, h3, h4⟩ := busyEntry_eq_some.mp he
      exact ⟨r, hr, h1, h2, h3, by rw [h4]; rfl⟩
    · rintro ⟨r, hr, h1, h2, h3, h4⟩
      cases hp : strptimeHour (timestamp_str r) with
      | none =>
        rw [hp] at h4
        exact absurd h4 (by simp)
      | some k =>
        refine ⟨k, ?_⟩
        rw [busyPairs]
        exact List.mem_filterMap.mpr ⟨r, hr, busyEntry_eq_some.mpr ⟨h1, h2, h3, hp⟩⟩
  · rw [mem_fobUnitsSorted]
    constructor
    · rintro ⟨i, hm⟩
      rw [fobPairs] at hm
      obtain ⟨r, hr, he⟩ := List.mem_filterMap.mp hm
      obtain ⟨h1, h2, -⟩ := fobEntry_eq_some.mp he
      exact ⟨r, hr, h1, h2⟩
    · rintro ⟨r, hr, h1, h2⟩
      refine ⟨fob_id r, ?_⟩
      rw [fobPairs]
      exact List.mem_filterMap.mpr ⟨r, hr, fobEntry_eq_some.mpr ⟨h1, h2, rfl⟩⟩

/-- Claim C10: a record with a non-empty trimmed unit identifier whose batch
and number fields are both missing or trim to the empty string contributes the
credential id `-` (the bare separator): the unit appears in the fob report
with `-` among its listed ids. -/
theorem c10_dash_credential (data : List AccessRecord) (r : AccessRecord)
    (hr : r ∈ data) (hu : unit_number r ≠ "") (hb : card_batch r = "")
    (hn : card_number r = "") :
    unit_number r ∈ fobUnitsSorted data ∧ "-" ∈ fobIdsSorted data (unit_number r) := by
  have hid : fob_id r = "-" := by
    rw [fob_id, hb, hn]
    rfl
  constructor
  · rw [mem_fobUnitsSorted]
    refine ⟨fob_id r, ?_⟩
    rw [fobPairs]
    exact List.mem_filterMap.mpr ⟨r, hr, fobEntry_eq_some.mpr ⟨rfl, hu, rfl⟩⟩
  · rw [mem_fobIdsSorted, fobPairs]
    exact List.mem_filterMap.mpr ⟨r, hr, fobEntry_eq_some.mpr ⟨rfl, hu, hid⟩⟩

/-- Witness for C10 at a concrete input: `CardBatch` absent and `CardNumber`
whitespace-only still yield the id `-` for the unit. -/
theorem c10_dash_credential_witness :
    (⟨some "unit9", none, some "  ", none⟩ : AccessRecord) ∈
        [(⟨some "unit9", none, some "  ", none⟩ : AccessRecord)] ∧
    unit_number ⟨some "unit9", none, some "  ", none⟩ ≠ "" ∧
    card_batch ⟨some "unit9", none, some "  ", none⟩ = "" ∧
    card_number ⟨some "unit9", none, some "  ", none⟩ = "" ∧
    unit_number ⟨some "unit9", none, some "  ", none⟩ ∈
      fobUnitsSorted [⟨some "unit9", none, some "  ", none⟩] ∧
    "-" ∈ fobIdsSorted [⟨some "unit9", none, some "  ", none⟩]
      (unit_number ⟨some "unit9", none, some "  ", none⟩) := by
  refine ⟨by decide, by decide, by decide, by decide, ?_⟩
  exact c10_dash_credential _ _ (by decide) (by decide) (by decide) (by decide)

/-- Claim C6: in both reports the unit rows appear in strictly ascending
code-point lexicographic order of the trimmed unit identifier, and within the
fob report each unit's credential-id list is strictly ascending as well (each
id therefore listed once, joined with `; ` by the renderer). -/
theorem c6_output_sorted (data : List AccessRecord) :
    List.Pairwise (fun a b => strLt a b = true) (busyUnitsSorted data) ∧
    List.Pairwise (fun a b => strLt a b = true) (fobUnitsSorted data) ∧
    ∀ u, List.Pairwise (fun a b => strLt a b = true) (fobIdsSorted data u) := by
  have key : ∀ l : List String,
      List.Pairwise (fun a b => strLt a b = true) (sortLe strLe l.dedup) := by
    intro l
    exact pairwise_strict strLt strLe
      (fun a b hle hne => strLt_of_strLe_ne hle hne)
      (pairwise_sortLe strLe strLe_total strLe_trans _)
      (nodup_sortLe strLe (List.nodup_dedup l))
  exact ⟨key _, key _, fun u => key _⟩

/-- Counterexample for C2 as stated: the records `(batch "1-2", number "3")`
and `(batch "1", number "2-3")` derive the same CredentialId `1-2-3` although
neither the batch fields nor the number fields match. -/
theorem c2_exact_match_counterexample :
    fob_id ⟨some "u", some "1-2", some "3", none⟩ =
      fob_id ⟨some "u", some "1", some "2-3", none⟩ ∧
    (⟨some "u", some "1-2", some "3", none⟩ : AccessRecord).CardBatch ≠
      (⟨some "u", some "1", some "2-3", none⟩ : AccessRecord).CardBatch ∧
    (⟨some "u", some "1-2", some "3", none⟩ : AccessRecord).CardNumber ≠
      (⟨some "u", some "1", some "2-3", none⟩ : AccessRecord).CardNumber := by
  refine ⟨by decide, by decide, by decide⟩

/-- Claim C2 (amended): two records derive the same CredentialId iff their
TRIMMED batch fields and TRIMMED number fields agree, PROVIDED neither
record's trimmed batch contains the separator `-`; without that proviso the
forward direction fails (see the counterexample). -/
theorem c2_credential_id_iff_fields (r₁ r₂ : AccessRecord)
    (h₁ : '-' ∉ (card_batch r₁).data) (h₂ : '-' ∉ (card_batch r₂).data) :
    fob_id r₁ = fob_id r₂ ↔
      card_batch r₁ = card_batch r₂ ∧ card_number r₁ = card_number r₂ := by
  constructor
  · intro h
    have hd : (card_batch r₁).data ++ '-' :: (card_number r₁).data =
        (card_batch r₂).data ++ '-' :: (card_number r₂).data := by
      have hc := congrArg String.data h
      simpa [fob_id, String.data_append, List.append_assoc] using hc
    obtain ⟨hb, hn⟩ := append_sep_inj _ _ _ _ h₁ h₂ hd
    exact ⟨string_data_inj hb, string_data_inj hn⟩
  · rintro ⟨hb, hn⟩
    rw [fob_id, fob_id, hb, hn]

/-- Witness for C2 (amended) at concrete records, including the empty-batch
case that yields the id `-54321`. -/
theorem c2_credential_id_iff_fields_witness :
    ('-' ∉ (card_batch ⟨some "u", none, some "54321", none⟩).data) ∧
    ('-' ∉ (card_batch ⟨some "u", some "210", some "54321", none⟩).data) ∧
    (fob_id ⟨some "u", none, some "54321", none⟩ =
        fob_id ⟨some "u", some "210", some "54321", none⟩ ↔
      card_batch ⟨some "u", none, some "54321", none⟩ =
          card_batch ⟨some "u", some "210", some "54321", none⟩ ∧
        card_number ⟨some "u", none, some "54321", none⟩ =
          card_number ⟨some "u", some "210", some "54321", none⟩) := by
  refine ⟨by decide, by decide, ?_⟩
  exact c2_credential_id_iff_fields _ _ (by decide) (by decide)

/-- Counterexample for C1 as stated: the timestamp `2023-05-15T8:30:00` (hour
not zero-padded) deviates from the claimed strict shape, yet the aggregator
counts the record: the histogram count is 1 while the number of records
matching the strict-format predicate is 0. -/
theorem c1_strict_format_counterexample :
    histCount [⟨some "unit101", none, none, some "2023-05-15T8:30:00"⟩] "unit101" 8 = 1 ∧
    List.countP
      (fun r => decide (unit_number r = "unit101" ∧ ("unit101" : String) ≠ "" ∧
        specStrictHour (timestamp_str r) = some 8))
      [⟨some "unit101", none, none, some "2023-05-15T8:30:00"⟩] = 0 ∧
    histCount [⟨some "unit101", none, none, some "2023-05-15T8:30:00"⟩] "unit101" 8 ≠
      List.countP
        (fun r => decide (unit_number r = "unit101" ∧ ("unit101" : String) ≠ "" ∧
          specStrictHour (timestamp_str r) = some 8))
        [⟨some "unit101", none, none, some "2023-05-15T8:30:00"⟩] := by
  refine ⟨by decide, by decide, by decide⟩

/-- Claim C1 (amended): the busy-time aggregator increments the count of
`(u, h)` exactly once per record whose trimmed unit identifier equals the
non-empty `u` and whose trimmed timestamp is non-empty and is accepted by
Python's `strptime` with format `%Y-%m-%dT%H:%M:%S` with hour `h` — a parse
that is NOT strict about zero padding: the year takes exactly 4 digits, but
month, day, hour, minute and second each take one or two digits (subject to
their value ranges and the calendar day check, and with `T` matched
case-insensitively), per `strptimeHour`. -/
theorem c1_busy_histogram_lenient (data : List AccessRecord) (u : String) (h : Nat) :
    histCount data u h = List.countP
      (fun r => decide (unit_number r = u ∧ u ≠ "" ∧ timestamp_str r ≠ "" ∧
        strptimeHour (timestamp_str r) = some h)) data := by
  rw [histCount, histCountP, busyPairs, count_filterMap_eq_countP]
  apply List.countP_congr
  intro r _
  simp only [beq_iff_eq, decide_eq_true_eq]
  exact busyEntry_eq_some

/-- The fob report depends on the insertion list only through its set of
`(unit, fob_id)` pairs — the embedding-level statement of Python set
semantics. -/
theorem renderFob_ext {p₁ p₂ : List (String × String)}
    (hm : ∀ q, q ∈ p₁ ↔ q ∈ p₂) : renderFob p₁ = renderFob p₂ := by
  have hunits : fobUnitsP p₁ = fobUnitsP p₂ := by
    rw [fobUnitsP, fobUnitsP]
    apply sortLe_congr strLe strLe_total strLe_trans strLe_antisymm
      (List.nodup_dedup _) (List.nodup_dedup _)
    intro a
    rw [List.mem_dedup, List.mem_dedup]
    constructor
    · intro hx
      obtain ⟨q, hq, he⟩ := List.mem_map.mp hx
      exact List.mem_map.mpr ⟨q, (hm q).mp hq, he⟩
    · intro hx
      obtain ⟨q, hq, he⟩ := List.mem_map.mp hx
      exact List.mem_map.mpr ⟨q, (hm q).mpr hq, he⟩
  have hids : ∀ u, fobIdsP p₁ u = fobIdsP p₂ u := by
    intro u
    rw [fobIdsP, fobIdsP]
    apply sortLe_congr strLe strLe_total strLe_trans strLe_antisymm
      (List.nodup_dedup _) (List.nodup_dedup _)
    intro a
    rw [List.mem_dedup, List.mem_dedup]
    constructor
    · intro hx
      obtain ⟨q, hq, he⟩ := List.mem_map.mp hx
      obtain ⟨hq', hf⟩ := List.mem_filter.mp hq
      exact List.mem_map.mpr ⟨q, List.mem_filter.mpr ⟨(hm q).mp hq', hf⟩, he⟩
    · intro hx
      obtain ⟨q, hq, he⟩ := List.mem_map.mp hx
      obtain ⟨hq', hf⟩ := List.mem_filter.mp hq
      exact List.mem_map.mpr ⟨q, List.mem_filter.mpr ⟨(hm q).mpr hq', hf⟩, he⟩
  have hfuns : (fun u => u ++ "," ++ String.intercalate "; " (fobIdsP p₁ u)) =
      (fun u => u ++ "," ++ String.intercalate "; " (fobIdsP p₂ u)) :=
    funext fun u => by rw [hids u]
  rw [renderFob, renderFob, fobLinesP, fobLinesP, hunits, hfuns]

/-- Claim C5: appending a record that duplicates an existing record's
(trimmed unit, trimmed batch, trimmed number) leaves the fob report text
unchanged — each unit carries one entry per distinct derived credential id no
matter how many duplicate records occur. -/
theorem c5_duplicate_insertion_noop (data : List AccessRecord) (r r' : AccessRecord)
    (hr' : r' ∈ data) (hu : unit_number r = unit_number r')
    (hb : card_batch r = card_batch r') (hn : card_number r = card_number r') :
    generate_unit_fob_report (data ++ [r]) = generate_unit_fob_report data := by
  have hid : fob_id r = fob_id r' := by
    rw [fob_id, fob_id, hb, hn]
  rw [generate_unit_fob_report, generate_unit_fob_report]
  apply renderFob_ext
  intro q
  by_cases he : unit_number r = ""
  · have h0 : fobEntry r = none := by
      unfold fobEntry
      rw [if_pos he]
    simp [fobPairs, List.filterMap_append, List.filterMap_cons, h0]
  · have h0 : fobEntry r = some (unit_number r, fob_id r) := by
      unfold fobEntry
      rw [if_neg he]
    have hmem : (unit_number r, fob_id r) ∈ List.filterMap fobEntry data :=
      List.mem_filterMap.mpr ⟨r', hr', fobEntry_eq_some.mpr ⟨hu.symm, he, hid.symm⟩⟩
    simp only [fobPairs, List.filterMap_append, List.filterMap_cons, h0,
      List.filterMap_nil, List.mem_append, List.mem_singleton]
    constructor
    · rintro (hx | rfl)
      · exact hx
      · exact hmem
    · intro hx
      exact Or.inl hx

/-- Witness for C5 at a concrete input: re-appending a record that trims to
the same (unit, batch, number) leaves the fob report unchanged. -/
theorem c5_duplicate_insertion_noop_witness :
    (⟨some "unit104", some "240", some "87654", none⟩ : AccessRecord) ∈
        [(⟨some "unit104", some "240", some "87654", none⟩ : AccessRecord)] ∧
    unit_number ⟨some " unit104 ", some " 240", some "87654 ", some "bad"⟩ =
      unit_number ⟨some "unit104", some "240", some "87654", none⟩ ∧
    card_batch ⟨some " unit104 ", some " 240", some "87654 ", some "bad"⟩ =
      card_batch ⟨some "unit104", some "240", some "87654", none⟩ ∧
    card_number ⟨some " unit104 ", some " 240", some "87654 ", some "bad"⟩ =
      card_number ⟨some "unit104", some "240", some "87654", none⟩ ∧
    generate_unit_fob_report
        ([⟨some "unit104", some "240", some "87654", none⟩] ++
          [⟨some " unit104 ", some " 240", some "87654 ", some "bad"⟩]) =
      generate_unit_fob_report [⟨some "unit104", some "240", some "87654", none⟩] := by
  refine ⟨by decide, by decide, by decide, by decide, ?_⟩
  exact c5_duplicate_insertion_noop
    [⟨some "unit104", some "240", some "87654", none⟩]
    ⟨some " unit104 ", some " 240", some "87654 ", some "bad"⟩
    ⟨some "unit104", some "240", some "87654", none⟩
    (by decide) (by decide) (by decide) (by decide)

/-- Claim C4: for every unit in the busy-time report, the busiest-time field
lists exactly the hours whose histogram count equals the unit's maximum count
(which is positive, bounds every hour's count, and is attained), in ascending
numeric order, each formatted as the unpadded hour followed by `:00`, joined
by `; `. -/
theorem c4_busiest_hours_exact (data : List AccessRecord) (u : String)
    (hu : u ∈ busyUnitsSorted data) :
    busiest_time data u = String.intercalate "; "
      (((List.range 24).filter
          (fun h => decide (histCount data u h = maxCount data u))).map
        (fun h => toString h ++ ":00")) ∧
    0 < maxCount data u ∧
    (∀ h, histCount data u h ≤ maxCount data u) ∧
    (∃ h, h < 24 ∧ histCount data u h = maxCount data u) := by
  have hcnt_mem : ∀ h : Nat, 0 < histCount data u h ↔ h ∈ unitHours data u := by
    intro h
    rw [histCount, histCountP, List.count_pos_iff]
    exact Iff.symm mem_unitHours
  have hbound : ∀ h, h ∈ unitHours data u → h < 24 := fun h hm =>
    mem_busyPairs_hour_lt24 (mem_unitHours.mp hm)
  have hle : ∀ h, histCount data u h ≤ maxCount data u := by
    intro h
    by_cases h0 : 0 < histCount data u h
    · have hm : h ∈ unitHours data u := (hcnt_mem h).mp h0
      have hmm : histCount data u h ∈
          (unitHours data u).map (fun k => histCount data u k) :=
        List.mem_map.mpr ⟨h, hm, rfl⟩
      exact le_foldr_max hmm
    · omega
  have hex : ∃ h, h < 24 ∧ 0 < histCount data u h ∧
      histCount data u h = maxCount data u := by
    obtain ⟨h₀, hp₀⟩ := mem_busyUnitsSorted.mp hu
    have hm₀ : h₀ ∈ unitHours data u := mem_unitHours.mpr hp₀
    have hpos₀ : 0 < histCount data u h₀ := (hcnt_mem h₀).mpr hm₀
    rcases foldr_max_mem ((unitHours data u).map (fun k => histCount data u k)) with
      hin | hzero
    · obtain ⟨h₁, hm₁, he₁⟩ := List.mem_map.mp hin
      exact ⟨h₁, hbound h₁ hm₁, (hcnt_mem h₁).mpr hm₁, he₁⟩
    · exfalso
      have hmz : maxCount data u = 0 := hzero
      have := hle h₀
      omega
  have hmaxpos : 0 < maxCount data u := by
    obtain ⟨h₁, -, hpos, heq⟩ := hex
    omega
  have hlist : busiest_hours data u =
      (List.range 24).filter
        (fun h => decide (histCount data u h = maxCount data u)) := by
    rw [busiest_hours, busiestHoursP]
    apply sortLe_eq_of_mem natLeB natLeB_total natLeB_trans natLeB_antisymm
    · exact List.Nodup.filter _ (List.nodup_dedup _)
    · exact List.Nodup.filter _ (List.nodup_range 24)
    · refine List.Pairwise.imp ?_ ((List.pairwise_lt_range 24).filter _)
      intro a b hab
      simp only [natLeB, decide_eq_true_eq]
      omega
    · intro h
      rw [List.mem_filter, List.mem_filter, List.mem_range]
      constructor
      · rintro ⟨hmem, hpred⟩
        have hm' : h ∈ unitHours data u := hmem
        simp only [decide_eq_true_eq] at hpred ⊢
        exact ⟨hbound h hm', hpred⟩
      · rintro ⟨hlt', hpred⟩
        simp only [decide_eq_true_eq] at hpred ⊢
        refine ⟨(hcnt_mem h).mp ?_, hpred⟩
        rw [hpred]
        exact hmaxpos
  have hrfl : busiest_time data u =
      String.intercalate "; "
        ((busiest_hours data u).map (fun h => toString h ++ ":00")) := rfl
  refine ⟨by rw [hrfl, hlist], hmaxpos, hle, ?_⟩
  obtain ⟨h₁, hlt₁, -, heq₁⟩ := hex
  exact ⟨h₁, hlt₁, heq₁⟩

/-- Witness for C4 at a concrete input with a two-way tie at hours 8 and 14. -/
theorem c4_busiest_hours_exact_witness :
    "unit101" ∈ busyUnitsSorted
        [⟨some "unit101", none, none, some "2023-05-15T08:30:00"⟩,
         ⟨some "unit101", none, none, some "2023-05-15T08:45:00"⟩,
         ⟨some "unit101", none, none, some "2023-05-15T14:20:00"⟩,
         ⟨some "unit101", none, none, some "2023-05-15T14:25:00"⟩,
         ⟨some "unit101", none, none, some "2023-05-15T11:00:00"⟩] ∧
    busiest_time
        [⟨some "unit101", none, none, some "2023-05-15T08:30:00"⟩,
         ⟨some "unit101", none, none, some "2023-05-15T08:45:00"⟩,
         ⟨some "unit101", none, none, some "2023-05-15T14:20:00"⟩,
         ⟨some "unit101", none, none, some "2023-05-15T14:25:00"⟩,
         ⟨some "unit101", none, none, some "2023-05-15T11:00:00"⟩] "unit101" =
      String.intercalate "; "
        (((List.range 24).filter
            (fun h => decide (histCount
                [⟨some "unit101", none, none, some "2023-05-15T08:30:00"⟩,
                 ⟨some "unit101", none, none, some "2023-05-15T08:45:00"⟩,
                 ⟨some "unit101", none, none, some "2023-05-15T14:20:00"⟩,
                 ⟨some "unit101", none, none, some "2023-05-15T14:25:00"⟩,
                 ⟨some "unit101", none, none, some "2023-05-15T11:00:00"⟩] "unit101" h =
              maxCount
                [⟨some "unit101", none, none, some "2023-05-15T08:30:00"⟩,
                 ⟨some "unit101", none, none, some "2023-05-15T08:45:00"⟩,
                 ⟨some "unit101", none, none, some "2023-05-15T14:20:00"⟩,
                 ⟨some "unit101", none, none, some "2023-05-15T14:25:00"⟩,
                 ⟨some "unit101", none, none, some "2023-05-15T11:00:00"⟩] "unit101"))).map
          (fun h => toString h ++ ":00")) := by
  refine ⟨by decide, ?_⟩
  exact (c4_busiest_hours_exact _ "unit101" (by decide)).1
